import Mathlib

/-!
Shallow embedding of the insurance-cost-provider service.

The embedded code:
* `server/models.py` — `Tariff`, `PlainTariff`, cargo-type and payload validation;
* `server/db.py` — `DatabaseRequester.fetch_tariff`, `add_tariffs`,
  `update_tariff`, `delete_tariff` against the `tariffs` table
  (primary key `(date, cargo_type)`, attribute `rate`);
* `server/broker.py` — `compact_json` and `Broker.log` / `Broker.flush`
  over a size-limited Kafka batch;
* `api.py` — the `evaluate_cost`, `load`, `update`, `delete` endpoints and
  the `make_broker` dependency whose `finally` clause flushes the broker
  on request-scope exit.

The relational store is modelled as a list of rows; SQL statements become
list transformations with the statement's WHERE clauses as decidable
predicates.  Rates are modelled as rationals (every IEEE double used by the
service is a rational and the code compares rates only for equality).
-/

set_option autoImplicit false

namespace InsuranceCost

/-- A calendar date as carried by `datetime.date`. -/
structure Date where
  year : Nat
  month : Nat
  day : Nat
deriving DecidableEq, Repr

/-- Gregorian leap-year test, as in `datetime`. -/
def isLeapYear (y : Nat) : Bool :=
  y % 4 == 0 && (y % 100 != 0 || y % 400 == 0)

/-- Number of days of month `m` in year `y`. -/
def daysInMonth (y m : Nat) : Nat :=
  if m == 2 then (if isLeapYear y then 29 else 28)
  else if m == 4 || m == 6 || m == 9 || m == 11 then 30
  else 31

/-- Validity of a calendar date (`datetime.date` accepts years 1..9999). -/
def Date.valid (d : Date) : Bool :=
  decide (1 ≤ d.year) && decide (d.year ≤ 9999) &&
  decide (1 ≤ d.month) && decide (d.month ≤ 12) &&
  decide (1 ≤ d.day) && decide (d.day ≤ daysInMonth d.year d.month)

/-- `models.PlainTariff`: a tariff without a date. -/
structure PlainTariff where
  cargo_type : String
  rate : Rat
deriving DecidableEq, Repr

/-- `models.Tariff`: one row of the `tariffs` table. -/
structure Tariff where
  date : Date
  cargo_type : String
  rate : Rat
deriving DecidableEq, Repr

/-- The `CargoType` constraint of `models.py`: non-empty, at most 50 chars. -/
def validCargoType (ct : String) : Prop :=
  1 ≤ ct.length ∧ ct.length ≤ 50

instance (ct : String) : Decidable (validCargoType ct) := by
  unfold validCargoType; infer_instance

/-- A `Tariff` accepted by request validation: valid cargo type, strictly
positive rate, valid calendar date. -/
def validTariff (t : Tariff) : Prop :=
  validCargoType t.cargo_type ∧ 0 < t.rate ∧ t.date.valid = true

instance (t : Tariff) : Decidable (validTariff t) := by
  unfold validTariff; infer_instance

/-- The primary key of a row: `(date, cargo_type)`. -/
def tariffKey (t : Tariff) : Date × String :=
  (t.date, t.cargo_type)

/-- The `tariffs` table, a list of rows. -/
abbrev Store := List Tariff

/-- The primary-key invariant `unique_date_cargo_type` of the table. -/
def storeWF (s : Store) : Prop :=
  (s.map tariffKey).Nodup

instance (s : Store) : Decidable (storeWF s) := by
  unfold storeWF; infer_instance

/-- The WHERE clause `date = d AND cargo_type = ct`. -/
def keyTest (d : Date) (ct : String) (r : Tariff) : Bool :=
  decide (r.date = d ∧ r.cargo_type = ct)

/-- `DatabaseRequester.fetch_tariff`: `SELECT * FROM tariffs WHERE date = d
AND cargo_type = ct`, first row or none. -/
def fetch_tariff (s : Store) (d : Date) (ct : String) : Option Tariff :=
  s.find? (keyTest d ct)

/-- String rendered for a tariff in audit messages (`str(t)` in the source).
No claim inspects the text; it only has to be a function of the row. -/
def dateStr (d : Date) : String :=
  toString d.year ++ "-" ++ toString d.month ++ "-" ++ toString d.day

/-- Audit message text for one tariff row. -/
def tariffStr (t : Tariff) : String :=
  "cargo_type=" ++ t.cargo_type ++ " rate=" ++ toString t.rate ++
  " date=" ++ dateStr t.date

/-- One audit record passed to `Broker.log`. -/
structure AuditEntry where
  user : String
  operation : String
  message : String
deriving DecidableEq, Repr

/-- Builds the audit entry a repository method passes to `Broker.log`. -/
def mkAudit (user op : String) (t : Tariff) : AuditEntry :=
  AuditEntry.mk user op (tariffStr t)

/-- `SET rate = v` applied to every row matching the key. -/
def setRate (d : Date) (ct : String) (v : Rat) (s : Store) : Store :=
  s.map (fun r => if keyTest d ct r then Tariff.mk r.date r.cargo_type v else r)

/-- One VALUES row of the `INSERT .. ON CONFLICT unique_date_cargo_type DO
UPDATE SET rate = excluded.rate WHERE tariffs.rate != excluded.rate
RETURNING *` statement of `add_tariffs`: returns the new store and the
returned (inserted or updated) row, if any. -/
def upsertOne (s : Store) (t : Tariff) : Store × Option Tariff :=
  match fetch_tariff s t.date t.cargo_type with
  | none => (s ++ [t], some t)
  | some old =>
    if old.rate ≠ t.rate then
      (setRate t.date t.cargo_type t.rate s,
       some (Tariff.mk old.date old.cargo_type t.rate))
    else (s, none)

/-- The multi-VALUES statement processes the rows in input order. -/
def add_tariffs_aux (s : Store) : List Tariff → Store × List Tariff
  | [] => (s, [])
  | t :: rest =>
    let p := upsertOne s t
    let q := add_tariffs_aux p.1 rest
    (q.1, p.2.toList ++ q.2)

/-- `DatabaseRequester.add_tariffs`: upserts all rows, then logs one
`upsert` audit entry per returned row.  Yields the new store, the list of
affected rows, and the emitted audit entries. -/
def add_tariffs (user : String) (s : Store) (ts : List Tariff) :
    Store × List Tariff × List AuditEntry :=
  let p := add_tariffs_aux s ts
  (p.1, p.2, p.2.map (mkAudit user "upsert"))

/-- The WHERE clause of `update_tariff`: `date = t.date AND cargo_type =
t.cargo_type AND rate != t.rate`. -/
def updTest (t : Tariff) (r : Tariff) : Bool :=
  decide (r.date = t.date ∧ r.cargo_type = t.cargo_type ∧ r.rate ≠ t.rate)

/-- `DatabaseRequester.update_tariff`: `UPDATE tariffs SET rate = t.rate
WHERE date = .. AND cargo_type = .. AND rate != t.rate RETURNING *`, first
returned row or none; logs one `update` entry on success. -/
def update_tariff (user : String) (s : Store) (t : Tariff) :
    Store × Option Tariff × List AuditEntry :=
  match s.find? (updTest t) with
  | none => (s, none, [])
  | some old =>
    let updated := Tariff.mk old.date old.cargo_type t.rate
    (s.map (fun r => if updTest t r then Tariff.mk r.date r.cargo_type t.rate else r),
     some updated, [mkAudit user "update" updated])

/-- `DatabaseRequester.delete_tariff`: `DELETE FROM tariffs WHERE date = d
AND cargo_type = ct RETURNING *`, first returned row or none; logs one
`delete` entry on success. -/
def delete_tariff (user : String) (s : Store) (d : Date) (ct : String) :
    Store × Option Tariff × List AuditEntry :=
  match s.find? (keyTest d ct) with
  | none => (s, none, [])
  | some r =>
    (s.filter (fun x => ! keyTest d ct x), some r, [mkAudit user "delete" r])

/-- `fetch_tariff` paired with the audit entries it emits (none: the source
method never calls `Broker.log`). -/
def fetch_tariff_op (s : Store) (d : Date) (ct : String) :
    Option Tariff × List AuditEntry :=
  (fetch_tariff s d ct, [])

/-- `api_evaluate_cost`: look up the tariff; 404 when absent, otherwise
`rate * declared_price`. -/
def api_evaluate_cost (s : Store) (d : Date) (ct : String) (price : Rat) :
    Except Nat Rat :=
  match fetch_tariff s d ct with
  | none => Except.error 404
  | some t => Except.ok (t.rate * price)

/-! ### Payload validation (`models.py`) and the load endpoint (`api.py`) -/

/-- The duplicate test of `validate_tariff_list`: some cargo type occurs at
two or more indexes of the list. -/
def hasDupCT : List PlainTariff → Bool
  | [] => false
  | t :: rest => rest.any (fun r => r.cargo_type == t.cargo_type) || hasDupCT rest

/-- A payload accepted by the `load` endpoint validation: the parsed JSON
object is a mapping (distinct date keys) that is non-empty
(`validate_tariff_data`), and each date maps to a non-empty list
(`conlist min_length=1`) with at most one entry per cargo type
(`validate_tariff_list`). -/
def payloadWF (d : List (Date × List PlainTariff)) : Prop :=
  d ≠ [] ∧ (d.map Prod.fst).Nodup ∧
  ∀ p ∈ d, p.2 ≠ [] ∧ hasDupCT p.2 = false

/-- The flattening generator of `api_load_tariffs`: one `Tariff` per
`(date, plain tariff)` pair, in payload order. -/
def flattenPayload (d : List (Date × List PlainTariff)) : List Tariff :=
  d.flatMap (fun p => p.2.map (fun pt => Tariff.mk p.1 pt.cargo_type pt.rate))

/-! ### The audit broker (`server/broker.py` and `api.py`) -/

/-- Scalar JSON values of Python's `json` module; `nan`, `infinity` and
`neg_infinity` are the tokens `allow_nan=True` would emit for non-finite
floats. -/
inductive JsonScalar where
  | str (s : String)
  | num (q : Rat)
  | nan
  | infinity
  | neg_infinity
  | bool (b : Bool)
  | null
deriving DecidableEq, Repr

/-- Whether a scalar is a non-finite float token (`NaN`, `Infinity`,
`-Infinity`). -/
def JsonScalar.isNonFinite : JsonScalar → Bool
  | .nan => true
  | .infinity => true
  | .neg_infinity => true
  | _ => false

/-- Lowercase hex digit, as produced by Python's `\u00XX` escapes. -/
def hexDigitChar (n : Nat) : Char :=
  if n < 10 then Char.ofNat (48 + n) else Char.ofNat (87 + n)

/-- JSON escaping of one character with `ensure_ascii=False`, as in
Python's `json.JSONEncoder`. -/
def escapeChar (c : Char) : String :=
  if c = Char.ofNat 34 then "\\\""
  else if c = Char.ofNat 92 then "\\\\"
  else if c = Char.ofNat 10 then "\\n"
  else if c = Char.ofNat 9 then "\\t"
  else if c = Char.ofNat 13 then "\\r"
  else if c = Char.ofNat 8 then "\\b"
  else if c = Char.ofNat 12 then "\\f"
  else if c.toNat < 32 then
    "\\u00" ++ String.mk [hexDigitChar (c.toNat / 16), hexDigitChar (c.toNat % 16)]
  else String.mk [c]

/-- JSON string literal for `s`. -/
def escapeString (s : String) : String :=
  "\"" ++ String.join (s.toList.map escapeChar) ++ "\""

/-- Rendering of one scalar (`allow_nan=True`: non-finite floats become the
tokens `NaN` / `Infinity` / `-Infinity`). -/
def renderScalar : JsonScalar → String
  | .str s => escapeString s
  | .num q => toString q
  | .nan => "NaN"
  | .infinity => "Infinity"
  | .neg_infinity => "-Infinity"
  | .bool b => if b then "true" else "false"
  | .null => "null"

/-- Code-point lexicographic order on character lists, the order Python
compares `str` keys with under `sort_keys=True`. -/
def charListLe : List Char → List Char → Bool
  | [], _ => true
  | _ :: _, [] => false
  | a :: as, b :: bs =>
    if a < b then true else if b < a then false else charListLe as bs

/-- Lexicographic `≤` on strings. -/
def strLeB (a b : String) : Bool :=
  charListLe a.toList b.toList

/-- Insertion into a key-sorted field list. -/
def insertSorted (p : String × JsonScalar) :
    List (String × JsonScalar) → List (String × JsonScalar)
  | [] => [p]
  | q :: rest => if strLeB p.1 q.1 then p :: q :: rest else q :: insertSorted p rest

/-- Key ordering applied by `sort_keys=True`. -/
def sortFields : List (String × JsonScalar) → List (String × JsonScalar)
  | [] => []
  | p :: rest => insertSorted p (sortFields rest)

/-- One `key:value` item with the compact separators `(',', ':')`. -/
def renderField (p : String × JsonScalar) : String :=
  escapeString p.1 ++ ":" ++ renderScalar p.2

/-- Compact rendering of an object from already-ordered fields. -/
def renderObj (fields : List (String × JsonScalar)) : String :=
  "\x7b" ++ String.intercalate "," (fields.map renderField) ++ "\x7d"

/-- `broker.compact_json` applied to a flat dict: the configured encoder
uses `sort_keys=True`, `ensure_ascii=False`, `allow_nan=True` and the
compact separators, so keys are sorted before rendering.  `Broker.log`
only ever encodes flat string-valued dicts, so the embedding covers flat
objects. -/
def compact_json (fields : List (String × JsonScalar)) : String :=
  renderObj (sortFields fields)

/-- The dict built by `Broker.log`, in source (insertion) order:
`dict(user=user, operation=operation, message=msg)`. -/
def entryDict (u o m : String) : List (String × JsonScalar) :=
  [("user", JsonScalar.str u), ("operation", JsonScalar.str o),
   ("message", JsonScalar.str m)]

/-- The bytes `Broker.log` appends for one entry. -/
def serializeEntry (u o m : String) : String :=
  compact_json (entryDict u o m)

/-- State of one `Broker`: the open batch and the batches already sent to
the Kafka producer. -/
structure BrokerState where
  batch : List String
  sent : List (List String)
deriving DecidableEq, Repr

/-- A freshly constructed `Broker` holds one empty batch. -/
def initBroker : BrokerState :=
  BrokerState.mk [] []

/-- `BatchBuilder.append` of the log transport, capacity measured in
entries: returns the grown batch, or `none` (the full signal) when the
batch has no space — in which case the record is NOT appended. -/
def batchAppend (cap : Nat) (b : List String) (v : String) : Option (List String) :=
  if b.length < cap then some (b ++ [v]) else none

/-- `Broker.flush`: closes the current batch and sends it. -/
def brokerFlush (st : BrokerState) : BrokerState :=
  BrokerState.mk st.batch (st.sent ++ [st.batch])

/-- `Broker.log`: serialize the entry and append it to the batch; on the
full signal, flush the current batch and start a fresh one.  The rejected
record is not re-appended — exactly what the source does. -/
def brokerLog (cap : Nat) (st : BrokerState) (e : AuditEntry) : BrokerState :=
  let v := serializeEntry e.user e.operation e.message
  match batchAppend cap st.batch v with
  | some b => BrokerState.mk b st.sent
  | none => BrokerState.mk [] (st.sent ++ [st.batch])

/-- One broker session as `make_broker` runs it: a fresh broker, a sequence
of `log` calls, and the final `flush` of the `finally` clause. -/
def runBrokerSession (cap : Nat) (es : List AuditEntry) : BrokerState :=
  brokerFlush (es.foldl (brokerLog cap) initBroker)

/-- All serialized entries delivered to the log transport, in order. -/
def deliveredEntries (st : BrokerState) : List String :=
  st.sent.flatten

/-- Outcome of one request scope: whether its transaction committed, and
what the broker delivered.  `make_broker` flushes in a `finally` clause,
after the session context of `make_db_requester` has committed or rolled
back, so the flush runs whatever the outcome is. -/
structure ScopeRun where
  committed : Bool
  delivered : List String
deriving DecidableEq, Repr

/-- One request scope: the queued entries are logged, the transaction
commits or rolls back, and the broker is flushed on scope exit. -/
def runRequestScope (cap : Nat) (es : List AuditEntry) (commit : Bool) : ScopeRun :=
  ScopeRun.mk commit (deliveredEntries (runBrokerSession cap es))

/-- Whether one input row of `add_tariffs` is affected (inserted, or
updating a row whose stored rate differs). -/
def affectedB (s : Store) (t : Tariff) : Bool :=
  match fetch_tariff s t.date t.cargo_type with
  | none => true
  | some old => decide (old.rate ≠ t.rate)

/-! ### Support lemmas about the store operations -/

theorem keyTest_iff (d : Date) (ct : String) (r : Tariff) :
    keyTest d ct r = true ↔ r.date = d ∧ r.cargo_type = ct := by
  simp [keyTest]

theorem fetch_eq_none_iff (s : Store) (d : Date) (ct : String) :
    fetch_tariff s d ct = none ↔ ∀ r ∈ s, ¬(r.date = d ∧ r.cargo_type = ct) := by
  simp [fetch_tariff, List.find?_eq_none, keyTest]

theorem fetch_some_key (s : Store) (d : Date) (ct : String) (r : Tariff)
    (h : fetch_tariff s d ct = some r) :
    r ∈ s ∧ r.date = d ∧ r.cargo_type = ct := by
  refine ⟨List.mem_of_find?_eq_some h, ?_⟩
  have := List.find?_some h
  rwa [keyTest_iff] at this

theorem fetch_append_single (s : Store) (t : Tariff) (d : Date) (ct : String) :
    fetch_tariff (s ++ [t]) d ct =
      (fetch_tariff s d ct).or (fetch_tariff [t] d ct) := by
  simp [fetch_tariff, List.find?_append]

theorem fetch_cons (r : Tariff) (s : Store) (d : Date) (ct : String) :
    fetch_tariff (r :: s) d ct =
      if keyTest d ct r then some r else fetch_tariff s d ct := by
  simp only [fetch_tariff, List.find?_cons]
  split <;> simp_all [cond]

theorem fetch_setRate_self (s : Store) (d : Date) (ct : String) (v : Rat)
    (old : Tariff) (h : fetch_tariff s d ct = some old) :
    fetch_tariff (setRate d ct v s) d ct =
      some (Tariff.mk old.date old.cargo_type v) := by
  induction s with
  | nil => simp [fetch_tariff] at h
  | cons r rest ih =>
    rw [fetch_cons] at h
    by_cases hk : keyTest d ct r = true
    · rw [if_pos hk] at h
      cases h
      simp only [setRate, List.map_cons, if_pos hk]
      rw [fetch_cons]
      have hk2 : keyTest d ct (Tariff.mk old.date old.cargo_type v) = true := by
        rw [keyTest_iff] at hk ⊢; exact hk
      rw [if_pos hk2]
    · rw [if_neg hk] at h
      simp only [setRate, List.map_cons, if_neg hk]
      rw [fetch_cons, if_neg hk]
      exact ih h

theorem fetch_setRate_other (s : Store) (d : Date) (ct : String) (d' : Date)
    (ct' : String) (v : Rat) (hne : (d', ct') ≠ (d, ct)) :
    fetch_tariff (setRate d ct v s) d' ct' = fetch_tariff s d' ct' := by
  induction s with
  | nil => simp [setRate, fetch_tariff]
  | cons r rest ih =>
    simp only [setRate] at ih ⊢
    simp only [List.map_cons]
    by_cases hk : keyTest d ct r = true
    · rw [if_pos hk]
      rw [keyTest_iff] at hk
      have hk' : keyTest d' ct' (Tariff.mk r.date r.cargo_type v) = false := by
        rw [Bool.eq_false_iff]
        intro hc
        rw [keyTest_iff] at hc
        apply hne
        simp only [Prod.mk.injEq]
        obtain ⟨h1, h2⟩ := hc
        exact ⟨by rw [← h1, hk.1], by rw [← h2, hk.2]⟩
      have hk'' : keyTest d' ct' r = false := by
        rw [Bool.eq_false_iff]
        intro hc
        rw [keyTest_iff] at hc
        apply hne
        simp only [Prod.mk.injEq]
        exact ⟨by rw [← hc.1, hk.1], by rw [← hc.2, hk.2]⟩
      rw [fetch_cons, fetch_cons, hk', hk'', if_neg (by simp), if_neg (by simp)]
      exact ih
    · rw [if_neg hk, fetch_cons, fetch_cons]
      split
      · rfl
      · exact ih

theorem upsertOne_store_other (s : Store) (t : Tariff) (d : Date) (ct : String)
    (hne : (d, ct) ≠ tariffKey t) :
    fetch_tariff (upsertOne s t).1 d ct = fetch_tariff s d ct := by
  cases hf : fetch_tariff s t.date t.cargo_type with
  | none =>
    simp only [upsertOne, hf]
    rw [fetch_append_single]
    have h1 : fetch_tariff [t] d ct = none := by
      rw [fetch_eq_none_iff]
      intro r hr hc
      simp only [List.mem_singleton] at hr
      subst hr
      exact hne (by simp [tariffKey, hc.1, hc.2])
    rw [h1, Option.or_none]
  | some old =>
    simp only [upsertOne, hf]
    by_cases hr : old.rate ≠ t.rate
    · rw [if_pos hr]
      exact fetch_setRate_other s t.date t.cargo_type d ct t.rate
        (by simpa [tariffKey] using hne)
    · rw [if_neg hr]

theorem upsertOne_insert (s : Store) (t : Tariff)
    (h : fetch_tariff s t.date t.cargo_type = none) :
    (upsertOne s t).2 = some t ∧
    fetch_tariff (upsertOne s t).1 t.date t.cargo_type = some t := by
  refine ⟨by simp [upsertOne, h], ?_⟩
  simp only [upsertOne, h]
  rw [fetch_append_single, h, Option.none_or]
  rw [show ([t] : Store) = t :: [] from rfl, fetch_cons, if_pos]
  rw [keyTest_iff]
  exact ⟨rfl, rfl⟩

theorem upsertOne_update (s : Store) (t old : Tariff)
    (h : fetch_tariff s t.date t.cargo_type = some old) (hr : old.rate ≠ t.rate) :
    (upsertOne s t).2 = some t ∧
    fetch_tariff (upsertOne s t).1 t.date t.cargo_type = some t := by
  obtain ⟨hmem, hd, hct⟩ := fetch_some_key s t.date t.cargo_type old h
  constructor
  · simp only [upsertOne, h, if_pos hr]
    rw [hd, hct]
  · simp only [upsertOne, h, if_pos hr]
    rw [fetch_setRate_self s t.date t.cargo_type t.rate old h, hd, hct]

theorem upsertOne_noop (s : Store) (t old : Tariff)
    (h : fetch_tariff s t.date t.cargo_type = some old) (hr : old.rate = t.rate) :
    upsertOne s t = (s, none) := by
  simp [upsertOne, h, hr]

theorem upsertOne_fetch_self (s : Store) (t : Tariff) :
    fetch_tariff (upsertOne s t).1 t.date t.cargo_type = some t := by
  cases hf : fetch_tariff s t.date t.cargo_type with
  | none => exact (upsertOne_insert s t hf).2
  | some old =>
    by_cases hr : old.rate = t.rate
    · obtain ⟨_, hd, hct⟩ := fetch_some_key s t.date t.cargo_type old hf
      rw [upsertOne_noop s t old hf hr]
      show fetch_tariff s t.date t.cargo_type = some t
      rw [hf]
      cases t; cases old; simp_all
    · exact (upsertOne_update s t old hf hr).2

theorem add_aux_fetch_other (ts : List Tariff) :
    ∀ (s : Store) (d : Date) (ct : String),
      (∀ t ∈ ts, (d, ct) ≠ tariffKey t) →
      fetch_tariff (add_tariffs_aux s ts).1 d ct = fetch_tariff s d ct := by
  induction ts with
  | nil => intro s d ct _; rfl
  | cons t rest ih =>
    intro s d ct h
    show fetch_tariff (add_tariffs_aux (upsertOne s t).1 rest).1 d ct = _
    rw [ih (upsertOne s t).1 d ct (fun u hu => h u (List.mem_cons_of_mem _ hu))]
    exact upsertOne_store_other s t d ct (h t (List.mem_cons_self t rest))

theorem add_aux_fetch_mem (ts : List Tariff) :
    ∀ (s : Store), (ts.map tariffKey).Nodup →
      ∀ t ∈ ts, fetch_tariff (add_tariffs_aux s ts).1 t.date t.cargo_type =
        match fetch_tariff s t.date t.cargo_type with
        | none => some t
        | some old => if old.rate = t.rate then some old else some t := by
  induction ts with
  | nil => intro s _ t ht; cases ht
  | cons u rest ih =>
    intro s hd t ht
    rw [List.map_cons, List.nodup_cons] at hd
    obtain ⟨hnotin, hrest⟩ := hd
    rcases List.mem_cons.mp ht with heq | hmem
    · subst heq
      have hother : ∀ v ∈ rest, (t.date, t.cargo_type) ≠ tariffKey v := by
        intro v hv hc
        exact hnotin (by rw [show ((t.date, t.cargo_type) : Date × String) = tariffKey t from rfl] at hc; rw [hc]; exact List.mem_map_of_mem tariffKey hv)
      show fetch_tariff (add_tariffs_aux (upsertOne s t).1 rest).1 t.date t.cargo_type = _
      rw [add_aux_fetch_other rest (upsertOne s t).1 t.date t.cargo_type hother]
      cases hf : fetch_tariff s t.date t.cargo_type with
      | none => exact (upsertOne_insert s t hf).2
      | some old =>
        show fetch_tariff (upsertOne s t).1 t.date t.cargo_type =
          if old.rate = t.rate then some old else some t
        by_cases hr : old.rate = t.rate
        · rw [if_pos hr, upsertOne_noop s t old hf hr]
          show fetch_tariff s t.date t.cargo_type = some old
          exact hf
        · rw [if_neg hr]
          exact (upsertOne_update s t old hf hr).2
    · have hne : (t.date, t.cargo_type) ≠ tariffKey u := by
        intro hc
        exact hnotin (by rw [show ((t.date, t.cargo_type) : Date × String) = tariffKey t from rfl] at hc; rw [← hc]; exact List.mem_map_of_mem tariffKey hmem)
      show fetch_tariff (add_tariffs_aux (upsertOne s u).1 rest).1 t.date t.cargo_type = _
      rw [ih (upsertOne s u).1 hrest t hmem,
        upsertOne_store_other s u t.date t.cargo_type hne]

theorem add_aux_affected (ts : List Tariff) :
    ∀ (s : Store), (ts.map tariffKey).Nodup →
      (add_tariffs_aux s ts).2 = ts.filter (affectedB s) := by
  induction ts with
  | nil => intro s _; rfl
  | cons t rest ih =>
    intro s hd
    rw [List.map_cons, List.nodup_cons] at hd
    obtain ⟨hnotin, hrest⟩ := hd
    show (upsertOne s t).2.toList ++ (add_tariffs_aux (upsertOne s t).1 rest).2 = _
    rw [ih (upsertOne s t).1 hrest]
    have hcong : ∀ v ∈ rest, affectedB (upsertOne s t).1 v = affectedB s v := by
      intro v hv
      have hne : (v.date, v.cargo_type) ≠ tariffKey t := by
        intro hc
        exact hnotin (by rw [show ((v.date, v.cargo_type) : Date × String) = tariffKey v from rfl] at hc; rw [← hc]; exact List.mem_map_of_mem tariffKey hv)
      unfold affectedB
      rw [upsertOne_store_other s t v.date v.cargo_type hne]
    rw [List.filter_congr hcong, List.filter_cons]
    cases hf : fetch_tariff s t.date t.cargo_type with
    | none =>
      rw [(upsertOne_insert s t hf).1]
      have : affectedB s t = true := by unfold affectedB; rw [hf]
      rw [if_pos this]
      rfl
    | some old =>
      by_cases hr : old.rate = t.rate
      · rw [upsertOne_noop s t old hf hr]
        have : affectedB s t = false := by
          unfold affectedB; rw [hf]; simp [hr]
        rw [if_neg (by rw [this]; exact Bool.false_ne_true)]
        rfl
      · rw [(upsertOne_update s t old hf hr).1]
        have : affectedB s t = true := by
          unfold affectedB; rw [hf]; simp [hr]
        rw [if_pos this]
        rfl

theorem updTest_iff (t r : Tariff) :
    updTest t r = true ↔
      r.date = t.date ∧ r.cargo_type = t.cargo_type ∧ r.rate ≠ t.rate := by
  simp [updTest]

theorem find?_cons_if {α : Type} (p : α → Bool) (a : α) (l : List α) :
    (a :: l).find? p = if p a then some a else l.find? p := by
  simp only [List.find?_cons]
  split <;> simp_all [cond]

theorem find_updTest_none_of_no_key (t : Tariff) (s : Store)
    (hf : fetch_tariff s t.date t.cargo_type = none) :
    s.find? (updTest t) = none := by
  rw [List.find?_eq_none]
  intro r hr hc
  rw [updTest_iff] at hc
  rw [fetch_eq_none_iff] at hf
  exact hf r hr ⟨hc.1, hc.2.1⟩

theorem find_updTest_none_of_equal (t old : Tariff) (s : Store) (hwf : storeWF s)
    (hf : fetch_tariff s t.date t.cargo_type = some old) (hr : old.rate = t.rate) :
    s.find? (updTest t) = none := by
  obtain ⟨hmem, hd, hct⟩ := fetch_some_key s t.date t.cargo_type old hf
  rw [List.find?_eq_none]
  intro r hrmem hc
  rw [updTest_iff] at hc
  obtain ⟨hrd, hrct, hrr⟩ := hc
  have hre : r = old :=
    List.inj_on_of_nodup_map hwf hrmem hmem (by simp [tariffKey, hrd, hrct, hd, hct])
  rw [hre] at hrr
  exact hrr hr

theorem find_updTest_of_diff (t old : Tariff) (s : Store)
    (hf : fetch_tariff s t.date t.cargo_type = some old) (hr : old.rate ≠ t.rate) :
    s.find? (updTest t) = some old := by
  induction s with
  | nil => simp [fetch_tariff] at hf
  | cons r rest ih =>
    rw [fetch_cons] at hf
    by_cases hk : keyTest t.date t.cargo_type r = true
    · rw [if_pos hk] at hf
      have hro : r = old := by injection hf
      subst hro
      have hu : updTest t r = true := by
        rw [updTest_iff]
        rw [keyTest_iff] at hk
        exact ⟨hk.1, hk.2, hr⟩
      rw [find?_cons_if, if_pos hu]
    · rw [if_neg hk] at hf
      have hu : ¬ updTest t r = true := by
        intro hc
        rw [updTest_iff] at hc
        exact hk (by rw [keyTest_iff]; exact ⟨hc.1, hc.2.1⟩)
      rw [find?_cons_if, if_neg hu]
      exact ih hf

theorem fetch_updMap_self (t old : Tariff) (s : Store)
    (hf : fetch_tariff s t.date t.cargo_type = some old) (hr : old.rate ≠ t.rate) :
    fetch_tariff
      (s.map (fun r => if updTest t r then Tariff.mk r.date r.cargo_type t.rate else r))
      t.date t.cargo_type = some (Tariff.mk old.date old.cargo_type t.rate) := by
  induction s with
  | nil => simp [fetch_tariff] at hf
  | cons r rest ih =>
    rw [fetch_cons] at hf
    by_cases hk : keyTest t.date t.cargo_type r = true
    · rw [if_pos hk] at hf
      have hro : r = old := by injection hf
      subst hro
      have hu : updTest t r = true := by
        rw [updTest_iff]
        rw [keyTest_iff] at hk
        exact ⟨hk.1, hk.2, hr⟩
      simp only [List.map_cons, if_pos hu]
      rw [fetch_cons, if_pos ?_]
      · rw [keyTest_iff] at hk
        rw [keyTest_iff]
        exact hk
    · rw [if_neg hk] at hf
      have hu : ¬ updTest t r = true := by
        intro hc
        rw [updTest_iff] at hc
        exact hk (by rw [keyTest_iff]; exact ⟨hc.1, hc.2.1⟩)
      simp only [List.map_cons, if_neg hu]
      rw [fetch_cons, if_neg hk]
      exact ih hf

theorem fetch_updMap_other (t : Tariff) (s : Store) (d : Date) (ct : String)
    (hne : (d, ct) ≠ (t.date, t.cargo_type)) :
    fetch_tariff
      (s.map (fun r => if updTest t r then Tariff.mk r.date r.cargo_type t.rate else r))
      d ct = fetch_tariff s d ct := by
  induction s with
  | nil => rfl
  | cons r rest ih =>
    simp only [List.map_cons]
    by_cases hp : updTest t r = true
    · rw [if_pos hp]
      rw [updTest_iff] at hp
      have h1 : ¬ keyTest d ct (Tariff.mk r.date r.cargo_type t.rate) = true := by
        intro hc
        rw [keyTest_iff] at hc
        exact hne (by simp only [Prod.mk.injEq]
                      exact ⟨by rw [← hc.1, hp.1], by rw [← hc.2, hp.2.1]⟩)
      have h2 : ¬ keyTest d ct r = true := by
        intro hc
        rw [keyTest_iff] at hc
        exact hne (by simp only [Prod.mk.injEq]
                      exact ⟨by rw [← hc.1, hp.1], by rw [← hc.2, hp.2.1]⟩)
      rw [fetch_cons, fetch_cons, if_neg h1, if_neg h2]
      exact ih
    · rw [if_neg hp, fetch_cons, fetch_cons]
      split
      · rfl
      · exact ih

theorem fetch_filter_not_key (s : Store) (d : Date) (ct : String) :
    fetch_tariff (s.filter (fun x => ! keyTest d ct x)) d ct = none := by
  rw [fetch_eq_none_iff]
  intro r hr hc
  rw [List.mem_filter] at hr
  have h2 := hr.2
  rw [Bool.not_eq_eq_eq_not, Bool.not_true, Bool.eq_false_iff] at h2
  exact h2 (by rw [keyTest_iff]; exact hc)

theorem foldl_brokerLog_no_overflow (cap : Nat) (es : List AuditEntry) :
    ∀ (b : List String) (sent : List (List String)),
      b.length + es.length ≤ cap →
      es.foldl (brokerLog cap) (BrokerState.mk b sent) =
        BrokerState.mk
          (b ++ es.map (fun e => serializeEntry e.user e.operation e.message))
          sent := by
  induction es with
  | nil => intro b sent _; simp
  | cons e rest ih =>
    intro b sent h
    simp only [List.length_cons] at h
    have hlt : b.length < cap := by omega
    show rest.foldl (brokerLog cap) (brokerLog cap (BrokerState.mk b sent) e) = _
    have hb : brokerLog cap (BrokerState.mk b sent) e =
        BrokerState.mk (b ++ [serializeEntry e.user e.operation e.message]) sent := by
      simp [brokerLog, batchAppend, hlt]
    rw [hb, ih (b ++ [serializeEntry e.user e.operation e.message]) sent
      (by simp only [List.length_append, List.length_cons, List.length_nil]; omega)]
    simp

theorem session_delivers_all (cap : Nat) (es : List AuditEntry)
    (h : es.length ≤ cap) :
    deliveredEntries (runBrokerSession cap es) =
      es.map (fun e => serializeEntry e.user e.operation e.message) := by
  unfold runBrokerSession initBroker
  rw [foldl_brokerLog_no_overflow cap es [] [] (by simpa using h)]
  simp [brokerFlush, deliveredEntries]

theorem nodup_ct_of_not_hasDupCT (li : List PlainTariff)
    (h : hasDupCT li = false) :
    (li.map PlainTariff.cargo_type).Nodup := by
  induction li with
  | nil => simp
  | cons t rest ih =>
    simp only [hasDupCT, Bool.or_eq_false_iff] at h
    obtain ⟨h1, h2⟩ := h
    rw [List.map_cons, List.nodup_cons]
    refine ⟨?_, ih h2⟩
    intro hc
    rw [List.mem_map] at hc
    obtain ⟨r, hrmem, hrct⟩ := hc
    rw [List.any_eq_false] at h1
    exact h1 r hrmem (beq_iff_eq.mpr hrct)

theorem flatten_keys_nodup (d : List (Date × List PlainTariff))
    (hkeys : (d.map Prod.fst).Nodup)
    (helem : ∀ p ∈ d, hasDupCT p.2 = false) :
    ((flattenPayload d).map tariffKey).Nodup := by
  induction d with
  | nil => simp [flattenPayload]
  | cons p rest ih =>
    rw [List.map_cons, List.nodup_cons] at hkeys
    obtain ⟨hp1, hp2⟩ := hkeys
    have hgroup :
        ((p.2.map (fun pt => Tariff.mk p.1 pt.cargo_type pt.rate)).map tariffKey).Nodup := by
      rw [List.map_map]
      have hct := nodup_ct_of_not_hasDupCT p.2 (helem p (List.mem_cons_self p rest))
      have hinj : Function.Injective (fun ct => ((p.1, ct) : Date × String)) := by
        intro a b hab
        exact ((Prod.mk.injEq p.1 a p.1 b).mp hab).2
      have := hct.map hinj
      rw [List.map_map] at this
      exact this
    show ((flattenPayload (p :: rest)).map tariffKey).Nodup
    rw [show flattenPayload (p :: rest) =
      p.2.map (fun pt => Tariff.mk p.1 pt.cargo_type pt.rate) ++ flattenPayload rest from
        by simp [flattenPayload]]
    rw [List.map_append, List.nodup_append]
    refine ⟨hgroup, ih hp2 (fun q hq => helem q (List.mem_cons_of_mem p hq)), ?_⟩
    intro a ha hb
    rw [List.map_map, List.mem_map] at ha
    obtain ⟨pt, hptmem, hpta⟩ := ha
    simp only [flattenPayload, List.mem_map, List.mem_flatMap] at hb
    obtain ⟨u, ⟨q, hqmem, humem⟩, hua⟩ := hb
    obtain ⟨pt2, hpt2mem, hpt2u⟩ := humem
    apply hp1
    rw [List.mem_map]
    refine ⟨q, hqmem, ?_⟩
    have h1 : ((q.1, pt2.cargo_type) : Date × String) = a := by
      rw [← hua, ← hpt2u]
      rfl
    have h2 : ((p.1, pt.cargo_type) : Date × String) = a := hpta
    rw [← h2] at h1
    exact ((Prod.mk.injEq _ _ _ _).mp h1).1

instance (d : List (Date × List PlainTariff)) : Decidable (payloadWF d) := by
  unfold payloadWF
  infer_instance

/-! ### Claim theorems -/

/-- C1: For every non-empty list of `Tariff` values with pairwise-distinct
`(date, cargo_type)` keys, `add_tariffs` inserts each tariff whose key has
no existing row, updates the rate of each existing row whose stored rate
differs from the input rate, leaves every row with an identical rate
untouched, and returns exactly the rows that were inserted or whose rate
changed. -/
theorem add_tariffs_upsert_semantics (user : String) (s : Store)
    (ts : List Tariff) (hne : ts ≠ []) (hdist : (ts.map tariffKey).Nodup) :
    (∀ t ∈ ts, fetch_tariff s t.date t.cargo_type = none →
        fetch_tariff (add_tariffs user s ts).1 t.date t.cargo_type = some t)
    ∧ (∀ t ∈ ts, ∀ old, fetch_tariff s t.date t.cargo_type = some old →
        old.rate ≠ t.rate →
        fetch_tariff (add_tariffs user s ts).1 t.date t.cargo_type = some t)
    ∧ (∀ t ∈ ts, ∀ old, fetch_tariff s t.date t.cargo_type = some old →
        old.rate = t.rate →
        fetch_tariff (add_tariffs user s ts).1 t.date t.cargo_type = some old)
    ∧ (add_tariffs user s ts).2.1 = ts.filter (affectedB s) := by
  refine ⟨?_, ?_, ?_, add_aux_affected ts s hdist⟩
  · intro t ht hf
    have h0 := add_aux_fetch_mem ts s hdist t ht
    rw [hf] at h0
    exact h0
  · intro t ht old hf hrate
    have h0 := add_aux_fetch_mem ts s hdist t ht
    rw [hf] at h0
    have h1 : fetch_tariff (add_tariffs_aux s ts).1 t.date t.cargo_type =
        if old.rate = t.rate then some old else some t := h0
    rw [if_neg hrate] at h1
    exact h1
  · intro t ht old hf hrate
    have h0 := add_aux_fetch_mem ts s hdist t ht
    rw [hf] at h0
    have h1 : fetch_tariff (add_tariffs_aux s ts).1 t.date t.cargo_type =
        if old.rate = t.rate then some old else some t := h0
    rw [if_pos hrate] at h1
    exact h1

/-- C2: `update_tariff t` changes the rate stored at
`(t.date, t.cargo_type)` only if a row exists there whose rate differs from
`t.rate`, returning the updated row; it returns `none` both when no row
exists and when the existing row already has rate `t.rate`, and in the
no-row case the store is unchanged — in particular no row is created. -/
theorem update_tariff_semantics (user : String) (s : Store) (t : Tariff)
    (hwf : storeWF s) :
    (fetch_tariff s t.date t.cargo_type = none →
        (update_tariff user s t).2.1 = none ∧ (update_tariff user s t).1 = s)
    ∧ (∀ old, fetch_tariff s t.date t.cargo_type = some old →
        old.rate = t.rate →
        (update_tariff user s t).2.1 = none ∧ (update_tariff user s t).1 = s)
    ∧ (∀ old, fetch_tariff s t.date t.cargo_type = some old →
        old.rate ≠ t.rate →
        (update_tariff user s t).2.1 = some t ∧
        fetch_tariff (update_tariff user s t).1 t.date t.cargo_type = some t ∧
        (∀ (d : Date) (ct : String), (d, ct) ≠ (t.date, t.cargo_type) →
          fetch_tariff (update_tariff user s t).1 d ct = fetch_tariff s d ct)) := by
  refine ⟨?_, ?_, ?_⟩
  · intro hf
    have h := find_updTest_none_of_no_key t s hf
    exact ⟨by simp [update_tariff, h], by simp [update_tariff, h]⟩
  · intro old hf hrate
    have h := find_updTest_none_of_equal t old s hwf hf hrate
    exact ⟨by simp [update_tariff, h], by simp [update_tariff, h]⟩
  · intro old hf hrate
    have h := find_updTest_of_diff t old s hf hrate
    obtain ⟨hmem, hd, hct⟩ := fetch_some_key s t.date t.cargo_type old hf
    refine ⟨?_, ?_, ?_⟩
    · simp only [update_tariff, h]
      rw [hd, hct]
    · simp only [update_tariff, h]
      rw [fetch_updMap_self t old s hf hrate, hd, hct]
    · intro d ct hne2
      simp only [update_tariff, h]
      exact fetch_updMap_other t s d ct hne2

/-- C3: `delete_tariff` deletes the row at `(date, cargo_type)` if present
and returns its prior value; it returns `none` if no such row exists; and
after a successful delete, `fetch_tariff` on the same key returns none. -/
theorem delete_tariff_semantics (user : String) (s : Store) (d : Date)
    (ct : String) :
    (fetch_tariff s d ct = none →
        (delete_tariff user s d ct).2.1 = none ∧ (delete_tariff user s d ct).1 = s)
    ∧ (∀ r, fetch_tariff s d ct = some r →
        (delete_tariff user s d ct).2.1 = some r ∧
        fetch_tariff (delete_tariff user s d ct).1 d ct = none) := by
  constructor
  · intro hf
    have h : s.find? (keyTest d ct) = none := hf
    exact ⟨by simp [delete_tariff, h], by simp [delete_tariff, h]⟩
  · intro r hf
    have h : s.find? (keyTest d ct) = some r := hf
    refine ⟨by simp [delete_tariff, h], ?_⟩
    simp only [delete_tariff, h]
    exact fetch_filter_not_key s d ct

/-- C4: an audit entry is emitted exactly when a mutation succeeds, with
the matching operation name: `add_tariffs` emits one `upsert` entry per
affected row and none for untouched rows; `update_tariff` emits one
`update` entry exactly on success; `delete_tariff` emits one `delete`
entry exactly on success; `fetch_tariff` never emits an entry. -/
theorem audit_entries_exactly_on_success (user : String) (s : Store)
    (ts : List Tariff) (t : Tariff) (d : Date) (ct : String) :
    ((add_tariffs user s ts).2.2 =
      (add_tariffs user s ts).2.1.map (mkAudit user "upsert"))
    ∧ ((update_tariff user s t).2.2 =
        match (update_tariff user s t).2.1 with
        | some r => [mkAudit user "update" r]
        | none => [])
    ∧ ((delete_tariff user s d ct).2.2 =
        match (delete_tariff user s d ct).2.1 with
        | some r => [mkAudit user "delete" r]
        | none => [])
    ∧ (fetch_tariff_op s d ct).2 = [] := by
  refine ⟨rfl, ?_, ?_, rfl⟩
  · cases h : s.find? (updTest t) <;> simp [update_tariff, h]
  · cases h : s.find? (keyTest d ct) <;> simp [delete_tariff, h]

/-- C5: for every valid tariff `t` and any prior store state,
`add_tariffs [t]` followed by `fetch_tariff (t.date, t.cargo_type)`
returns a tariff equal to `t`. -/
theorem upsert_then_fetch_roundtrip (user : String) (s : Store) (t : Tariff)
    (hv : validTariff t) :
    fetch_tariff (add_tariffs user s [t]).1 t.date t.cargo_type = some t := by
  show fetch_tariff (add_tariffs_aux (upsertOne s t).1 []).1 t.date t.cargo_type = some t
  exact upsertOne_fetch_self s t

/-- C6: for every evaluate-cost request with a valid date, cargo type and
strictly positive declared price: if a tariff exists at the key the
endpoint returns the stored rate multiplied by the declared price, and if
no tariff exists it fails with 404 and evaluates no cost. -/
theorem evaluate_cost_semantics (s : Store) (d : Date) (ct : String)
    (price : Rat) (hd : Date.valid d = true) (hct : validCargoType ct)
    (hp : 0 < price) :
    (∀ t, fetch_tariff s d ct = some t →
        api_evaluate_cost s d ct price = Except.ok (t.rate * price))
    ∧ (fetch_tariff s d ct = none →
        api_evaluate_cost s d ct price = Except.error 404) := by
  constructor
  · intro t hf
    simp [api_evaluate_cost, hf]
  · intro hf
    simp [api_evaluate_cost, hf]

/-- C10: every payload accepted by the load endpoint validation flattens
to a list of tariffs in which no two entries share the same
`(date, cargo_type)` pair, while the same cargo type may appear under
several different dates. -/
theorem load_payload_flatten_distinct_keys (d : List (Date × List PlainTariff))
    (h : payloadWF d) :
    ((flattenPayload d).map tariffKey).Nodup := by
  obtain ⟨hne, hkeys, helem⟩ := h
  exact flatten_keys_nodup d hkeys (fun p hp => (helem p hp).2)

/-- C7: evaluation of the broker at the failing input.  With batch
capacity 1, the second `log` call hits the full signal; the first entry is
delivered, but the second — the entry that triggered the signal — is in no
delivered batch: `log` flushes and creates a fresh batch yet never appends
the rejected record. -/
theorem broker_full_signal_drops_entry :
    deliveredEntries (runBrokerSession 1
        [AuditEntry.mk "svc" "upsert" "m1", AuditEntry.mk "svc" "upsert" "m2"]) =
      [serializeEntry "svc" "upsert" "m1"]
    ∧ serializeEntry "svc" "upsert" "m2" ∉
        deliveredEntries (runBrokerSession 1
          [AuditEntry.mk "svc" "upsert" "m1", AuditEntry.mk "svc" "upsert" "m2"]) := by
  constructor
  · rfl
  · decide

/-- C8 counterexample: a request scope whose transaction rolls back still
delivers its queued audit entry — the scope-exit flush of `make_broker`
runs in a `finally` clause, so the entry is not discarded. -/
theorem scope_rollback_still_delivers :
    (runRequestScope 16 [AuditEntry.mk "svc" "upsert" "m"] false).committed = false
    ∧ serializeEntry "svc" "upsert" "m" ∈
        (runRequestScope 16 [AuditEntry.mk "svc" "upsert" "m"] false).delivered := by
  refine ⟨rfl, ?_⟩
  rw [show (runRequestScope 16 [AuditEntry.mk "svc" "upsert" "m"] false).delivered =
    [serializeEntry "svc" "upsert" "m"] from rfl]
  exact List.mem_singleton.mpr rfl

/-- C8 (amended): what the broker delivers is independent of the
transaction outcome — the scope-exit flush runs whether the scope commits
or rolls back — and whenever the batch capacity is not exceeded, every
entry queued during a rolled-back scope is delivered rather than
discarded. -/
theorem scope_delivery_independent_of_outcome (cap : Nat)
    (es : List AuditEntry) (outcome : Bool) (hcap : es.length ≤ cap) :
    (runRequestScope cap es outcome).delivered =
      (runRequestScope cap es true).delivered
    ∧ ∀ e ∈ es, serializeEntry e.user e.operation e.message ∈
        (runRequestScope cap es outcome).delivered := by
  refine ⟨rfl, ?_⟩
  intro e he
  show serializeEntry e.user e.operation e.message ∈
    deliveredEntries (runBrokerSession cap es)
  rw [session_delivers_all cap es hcap]
  exact List.mem_map_of_mem _ he

/-- C9: the serialization used by `Broker.log` is a deterministic function
of the entry — identical entries serialize to identical bytes — renders
the object keys in sorted order, and the encoded entry consists only of
string values, so no non-finite float token (`NaN`, `Infinity`) can
appear. -/
theorem serialize_entry_spec (u o m u2 o2 m2 : String)
    (h : AuditEntry.mk u o m = AuditEntry.mk u2 o2 m2) :
    serializeEntry u o m = serializeEntry u2 o2 m2
    ∧ serializeEntry u o m = renderObj
        [("message", JsonScalar.str m), ("operation", JsonScalar.str o),
         ("user", JsonScalar.str u)]
    ∧ (sortFields (entryDict u o m)).map Prod.fst = ["message", "operation", "user"]
    ∧ (entryDict u o m).all (fun p => ! p.2.isNonFinite) = true := by
  injection h with h1 h2 h3
  subst h1
  subst h2
  subst h3
  exact ⟨rfl, rfl, rfl, rfl⟩

/-! ### Witnesses -/

/-- Demo date used by the witnesses. -/
def demoDate : Date := Date.mk 2024 1 1

/-- A second, distinct demo date. -/
def demoDate2 : Date := Date.mk 2024 1 2

/-- The rate 1.5 of the spec scenario, in reduced form. -/
def demoRate : Rat := Rat.mk' 3 2

/-- The tariff of the spec scenario: electronics at rate 1.5. -/
def demoTariff : Tariff := Tariff.mk demoDate "electronics" demoRate

theorem add_tariffs_upsert_semantics_witness :
    fetch_tariff (add_tariffs "svc" [] [demoTariff]).1 demoDate "electronics" =
      some demoTariff
    ∧ (add_tariffs "svc" [] [demoTariff]).2.1 = [demoTariff].filter (affectedB []) :=
  ⟨(add_tariffs_upsert_semantics "svc" [] [demoTariff] (by simp) (by simp)).1
      demoTariff (by simp) rfl,
   (add_tariffs_upsert_semantics "svc" [] [demoTariff] (by simp) (by simp)).2.2.2⟩

theorem update_tariff_semantics_witness :
    (update_tariff "svc" [demoTariff] (Tariff.mk demoDate "electronics" 2)).2.1 =
      some (Tariff.mk demoDate "electronics" 2) :=
  ((update_tariff_semantics "svc" [demoTariff]
      (Tariff.mk demoDate "electronics" 2) (by simp [storeWF])).2.2
    demoTariff rfl (by decide)).1

theorem delete_tariff_semantics_witness :
    (delete_tariff "svc" [demoTariff] demoDate "electronics").2.1 = some demoTariff
    ∧ fetch_tariff (delete_tariff "svc" [demoTariff] demoDate "electronics").1
        demoDate "electronics" = none :=
  (delete_tariff_semantics "svc" [demoTariff] demoDate "electronics").2
    demoTariff rfl

theorem upsert_then_fetch_roundtrip_witness :
    fetch_tariff
      (add_tariffs "svc" [Tariff.mk demoDate "electronics" 7] [demoTariff]).1
      demoTariff.date demoTariff.cargo_type = some demoTariff :=
  upsert_then_fetch_roundtrip "svc" [Tariff.mk demoDate "electronics" 7]
    demoTariff (by decide)

theorem evaluate_cost_semantics_witness :
    api_evaluate_cost [demoTariff] demoDate "electronics" 200 = Except.ok 300 := by
  have h := (evaluate_cost_semantics [demoTariff] demoDate "electronics" 200
    (by decide) (by decide) (by decide)).1 demoTariff rfl
  rw [h]
  have hd32 : demoRate = (3 : Rat) / 2 := by
    rw [show demoRate = Rat.divInt 3 2 from Rat.mk'_eq_divInt,
      Rat.divInt_eq_div]
    norm_num
  have hr : demoTariff.rate * 200 = 300 := by
    show demoRate * 200 = 300
    rw [hd32]
    norm_num
  rw [hr]

theorem scope_delivery_independent_witness :
    serializeEntry "svc" "upsert" "m1" ∈
      (runRequestScope 4 [AuditEntry.mk "svc" "upsert" "m1"] false).delivered :=
  (scope_delivery_independent_of_outcome 4 [AuditEntry.mk "svc" "upsert" "m1"]
      false (by decide)).2
    (AuditEntry.mk "svc" "upsert" "m1") (List.mem_singleton.mpr rfl)

theorem serialize_entry_spec_witness :
    serializeEntry "svc" "upsert" "msg" = serializeEntry "svc" "upsert" "msg"
    ∧ (sortFields (entryDict "svc" "upsert" "msg")).map Prod.fst =
        ["message", "operation", "user"] :=
  ⟨(serialize_entry_spec "svc" "upsert" "msg" "svc" "upsert" "msg" rfl).1,
   (serialize_entry_spec "svc" "upsert" "msg" "svc" "upsert" "msg" rfl).2.2.1⟩

theorem load_payload_flatten_distinct_keys_witness :
    ((flattenPayload
        [(demoDate, [PlainTariff.mk "x" 1]), (demoDate2, [PlainTariff.mk "x" 2])]).map
      tariffKey).Nodup :=
  load_payload_flatten_distinct_keys
    [(demoDate, [PlainTariff.mk "x" 1]), (demoDate2, [PlainTariff.mk "x" 2])]
    (by decide)

end InsuranceCost
